import Mathlib

/-!
Verification development for the LoopMaster render engine
(`engine.py`, `main.py`): a shallow embedding of the frame-compositing
and audio-visualization pipeline, with theorems settling the spec's
claims about it.

Conventions of the embedding:
* Python `float` arithmetic is modelled exactly over `ℚ` (the settled
  statements only involve values where rounding cannot flip a branch).
* Python `int(x)` truncates toward zero (`pyInt`), `//` is floor
  division (`Int.fdiv`), `%` on a positive modulus is `Int.fmod`.
* Fallible code returns `Except PyErr _` / `Option _`; an uncaught
  Python exception is an `.error` value.
-/

set_option maxRecDepth 4000

/-- Python `int(x)` for a real operand: truncation toward zero. -/
def pyInt (q : ℚ) : ℤ :=
  if 0 ≤ q then ⌊q⌋ else -⌊-q⌋

/-- Python `list.insert(i, a)`: insert at `i`, clamped to the list length. -/
def pyInsert {α : Type} (l : List α) (i : ℕ) (a : α) : List α :=
  l.take i ++ a :: l.drop i

/-- Python `str.strip()` on a character list. -/
def pyStripChars (cs : List Char) : List Char :=
  ((cs.dropWhile Char.isWhitespace).reverse.dropWhile Char.isWhitespace).reverse

/-- Python `str.split(sep)` for a single-character separator: always returns
one more part than there are separators (so `"".split(c) = [""]`). -/
def splitChars (sep : Char) : List Char → List (List Char)
  | [] => [[]]
  | c :: cs =>
    let rest := splitChars sep cs
    if c = sep then
      [] :: rest
    else
      match rest with
      | [] => [[c]]
      | p :: ps => (c :: p) :: ps

/-- Digits of a numeral, or `none` if a non-digit occurs. -/
def digitsVal : List Char → Option ℕ
  | [] => some 0
  | c :: cs =>
    if c.isDigit then
      match digitsVal cs with
      | some v => some ((c.toNat - '0'.toNat) * 10 ^ cs.length + v)
      | none => none
    else none

/-- Python `float(s)` restricted to plain decimal numerals
(optional sign, digits, optional fractional part), which is the shape of
`.lrc` timestamp fields; anything else is `none`, standing for the
`ValueError` that `float` raises. -/
def pyFloat (cs : List Char) : Option ℚ :=
  let cs := pyStripChars cs
  let sgn : ℚ := if cs.head? = some '-' then -1 else 1
  let body : List Char :=
    if cs.head? = some '-' ∨ cs.head? = some '+' then cs.drop 1 else cs
  match splitChars '.' body with
  | [ip] =>
    match digitsVal ip with
    | some v => if ip.length = 0 then none else some (sgn * v)
    | none => none
  | [ip, fp] =>
    match digitsVal ip, digitsVal fp with
    | some vi, some vf =>
        if ip.length = 0 ∧ fp.length = 0 then none
        else some (sgn * (vi + (vf : ℚ) / 10 ^ fp.length))
    | _, _ => none
  | _ => none

/-- Does the second character list start with the first? -/
def charsStart : List Char → List Char → Bool
  | [], _ => true
  | _ :: _, [] => false
  | a :: as, b :: bs => a = b && charsStart as bs

/-- Does the second character list contain the first as a contiguous run? -/
def charsContain (pat : List Char) : List Char → Bool
  | [] => charsStart pat []
  | c :: cs => charsStart pat (c :: cs) || charsContain pat cs

/-- Python `pat in msg` on strings. -/
def msgContains (pat msg : String) : Bool :=
  charsContain pat.toList msg.toList

/-! ## Output resolution (`run_render`, engine.py lines 44-60)

`base_res_map` maps the resolution tier to a fixed pixel count (default
1080 for an unknown tier); the aspect ratio `ar_w:ar_h` decides which
dimension is fixed; both final dimensions are forced even by adding 1.  -/

/-- `base_res_map.get(config['res'], 1080)`. -/
def baseResMap (res : String) : ℕ :=
  if res = "720p" then 720
  else if res = "1080p" then 1080
  else if res = "2K" then 1440
  else if res = "4K" then 2160
  else 1080

/-- Force a dimension even: `if d % 2 != 0: d += 1`. -/
def evenUp (d : ℤ) : ℤ :=
  if d.fmod 2 ≠ 0 then d + 1 else d

/-- Output resolution derivation of `run_render`: for `ratio >= 1` the
height is the tier height and the width is derived; otherwise the width
is the tier height and the height is derived; both are then forced even.
(Requires `arH ≠ 0`; Python raises `ZeroDivisionError` there.) -/
def deriveWH (res : String) (arW arH : ℕ) : ℕ × ℕ :=
  let baseH : ℕ := baseResMap res
  let ratio : ℚ := (arW : ℚ) / (arH : ℚ)
  let wh : ℤ × ℤ :=
    if 1 ≤ ratio then (pyInt (baseH * ratio), baseH)
    else (baseH, pyInt ((baseH : ℚ) / ratio))
  ((evenUp wh.1).toNat, (evenUp wh.2).toNat)

/-! ## Spectrum height smoothing (`run_render`, engine.py lines 134-142)

Each bar's raw height sequence over the frame axis is smoothed by
`smoothed[t] = alpha*raw[t] + (1-alpha)*smoothed[t-1]`,
`alpha = 1 - smoothness/100`, seeded with the first raw frame; the
whole step is skipped when `smoothness <= 0`.  The numpy row
`bar_heights[i, :]` is modelled as the index function `raw : ℕ → ℚ`. -/

/-- The exponential-smoothing recurrence of engine.py lines 138-141. -/
def smoothedSeq (alpha : ℚ) (raw : ℕ → ℚ) : ℕ → ℚ
  | 0 => raw 0
  | t + 1 => alpha * raw (t + 1) + (1 - alpha) * smoothedSeq alpha raw t

/-- The guarded smoothing step of engine.py lines 135-142:
applied only when `smoothness > 0`. -/
def applySmoothness (smoothness : ℚ) (raw : ℕ → ℚ) : ℕ → ℚ :=
  if 0 < smoothness then smoothedSeq (1 - smoothness / 100) raw else raw

/-! ## Bracketed-timestamp (`.lrc`) lyric parsing
(`run_render`, engine.py lines 479-502)

Each line is stripped; lines of shape `[mm:ss]text` contribute a pair
`(mm*60+ss, text)` to `parsed`; a `float` failure aborts the whole
parse (the enclosing `try` leaves `subs = []`).  A second pass turns
`parsed` into cues: entry `i` ends at entry `i+1`'s start (the last at
`dur`), clamped to `dur`; empty-text entries and entries starting at or
after `dur` yield no cue. -/

/-- Lex one `.lrc` line (engine.py lines 484-493).
`none` models the `ValueError` that `float` raises on a malformed
timestamp; `some none` is a silently skipped line. -/
def lexLrcLine (line : String) : Option (Option (ℚ × String)) :=
  let cs := pyStripChars line.toList
  if cs.head? = some '[' ∧ cs.contains ']' then
    let idx := cs.findIdx (· = ']')
    let timeStr := (cs.drop 1).take (idx - 1)
    let content := pyStripChars (cs.drop (idx + 1))
    match splitChars ':' timeStr with
    | [p0, p1] =>
      match pyFloat p0, pyFloat p1 with
      | some m, some s => some (some (m * 60 + s, content.asString))
      | _, _ => none
    | _ => some none
  else some none

/-- First pass over the file: collect `parsed` (engine.py lines 483-493);
`none` when any line raises, in which case the `except` clause leaves
the cue list empty. -/
def lrcLex : List String → Option (List (ℚ × String))
  | [] => some []
  | line :: rest =>
    match lexLrcLine line, lrcLex rest with
    | some (some p), some ps => some (p :: ps)
    | some none, some ps => some ps
    | _, _ => none

/-- Second pass (engine.py lines 494-500): assemble cues from `parsed`. -/
def lrcAssemble (dur : ℚ) : List (ℚ × String) → List ((ℚ × ℚ) × String)
  | [] => []
  | (s, txt) :: rest =>
    let e := match rest with
      | [] => dur
      | (s2, _) :: _ => s2
    let e := min e dur
    let tail := lrcAssemble dur rest
    if txt = "" then tail
    else if s < dur then ((s, e), txt) :: tail
    else tail

/-- The whole `.lrc` branch of engine.py lines 479-502: on a lexing
exception the handler leaves `subs` empty. -/
def parseLrc (dur : ℚ) (lines : List String) : List ((ℚ × ℚ) × String) :=
  match lrcLex lines with
  | some parsed => lrcAssemble dur parsed
  | none => []

/-! ## Spectrum rendering (`make_spectrum_rgba`, engine.py lines 180-355)

The per-frame draw is modelled as a function from a context (the values
`run_render` computes once per job, engine.py lines 144-176) and a
timestamp to either a Python exception or a frame value.  A frame value
records the buffer kind the function returns (the RGBA array, or the
RGB-only array of the `Line`/`Filled Line` fallthrough blocks at lines
254-285) together with the list of draw calls that reached it; a pixel
of the alpha mask is nonzero exactly when some draw call covers it, so
an empty list is a frame with an all-zero mask.

Control flow of the source, which the definition mirrors:
* styles outside `{Circle, Line, Filled Line}` take the
  `else` branch at lines 238-252, where `cx`, `radius`, `draw` and
  `pil_img` are names bound only in the other branch — Python raises
  `UnboundLocalError` (`cx` at the first bar with positive height,
  otherwise `pil_img` at the `return`);
* `Line` and `Filled Line` fall through to lines 254-285 and return a
  fresh RGB image (the RGBA drawing of lines 212-234 is discarded);
* `Circle` falls through to the per-bar loop at line 287, whose final
  `else` assigns the 3-channel `config['color']` into a slice of the
  4-channel frame — numpy raises a broadcast `ValueError` at the first
  bar with positive height.

The trigonometric direction of each `Circle` bar
(`math.cos/math.sin` of `angle - pi/2`) is abstracted by the oracle
field `dir`, since every settled statement is guarded by `bh > 0`.
The per-index cache (`_spec_cache`) only replays values computed by
this function, so it is not modelled. -/

inductive PyErr
  | unboundLocal (name : String)
  | nameError (name : String)
  | broadcastErr
  deriving DecidableEq

inductive DrawOp
  | lineSeg (pts : List (ℚ × ℚ)) (width : ℤ)
  | polygon (pts : List (ℚ × ℚ))
  deriving DecidableEq

inductive BufKind
  | rgba
  | rgb
  deriving DecidableEq

structure SpecFrame where
  kind : BufKind
  ops : List DrawOp
  deriving DecidableEq

/-- Position option for the spectrum: a named anchor or a custom
relative `(rx, ry)` pair. -/
inductive SpecPos
  | named (s : String)
  | custom (rx ry : ℚ)

structure SpecOptions where
  style : String
  color : List ℕ
  size : ℚ
  thickness : ℚ
  pos : SpecPos
  dir : ℕ → ℚ × ℚ

/-- The values `run_render` derives once per job for the spectrum
(engine.py lines 116-178). -/
structure SpecCtx where
  w : ℕ
  h : ℕ
  style : String
  color : List ℕ
  size : ℚ
  heights : List (List ℚ)
  numFrames : ℕ
  baseY : ℤ
  isTop : Bool
  startX : ℤ
  specWidth : ℤ
  barWidth : ℤ
  drawnW : ℤ
  offset : ℤ
  dir : ℕ → ℚ × ℚ

/-- Spectrum geometry setup of engine.py lines 149-176. -/
def mkSpecCtx (w h : ℕ) (o : SpecOptions) (heights : List (List ℚ))
    (numFrames : ℕ) : SpecCtx :=
  let baseY : ℤ :=
    match o.pos with
    | .custom _ ry => pyInt (ry * h)
    | .named p =>
      if p = "Top" then pyInt ((h : ℚ) * (5 / 100))
      else if p = "Center" then (h : ℤ).fdiv 2
      else pyInt ((h : ℚ) * (95 / 100))
  let isTop : Bool :=
    match o.pos with
    | .named p => p = "Top"
    | .custom _ ry => ry < 2 / 5
  let specWidth : ℤ := pyInt ((w : ℚ) * (8 / 10))
  let startX : ℤ :=
    match o.pos with
    | .custom rx _ => pyInt (rx * w - (specWidth : ℚ) / 2)
    | .named _ => ((w : ℤ) - specWidth).fdiv 2
  let barWidth : ℤ := specWidth.fdiv 50
  let drawnW : ℤ := max 1 (pyInt ((barWidth : ℚ) * (o.thickness / 100)))
  let offset : ℤ := (barWidth - drawnW).fdiv 2
  { w := w, h := h, style := o.style, color := o.color, size := o.size,
    heights := heights, numFrames := numFrames, baseY := baseY,
    isTop := isTop, startX := startX, specWidth := specWidth,
    barWidth := barWidth, drawnW := drawnW, offset := offset, dir := o.dir }

/-- `num_bars = 50` (engine.py line 116). -/
def numBars : ℕ := 50

/-- `bar_heights[i, frame_idx]` (out-of-range access does not occur for
the inputs considered). -/
def getH (ctx : SpecCtx) (i fidx : ℕ) : ℚ :=
  (ctx.heights.getD i []).getD fidx 0

/-- `bh = int(bar_heights[i, frame_idx])`. -/
def barH (ctx : SpecCtx) (i fidx : ℕ) : ℤ :=
  pyInt (getH ctx i fidx)

/-- Whether any bar of the frame has `bh > 0`: the guard under which the
per-bar loops execute their bodies. -/
def anyBarPos (ctx : SpecCtx) (fidx : ℕ) : Bool :=
  (List.range numBars).any fun i => decide (0 < barH ctx i fidx)

/-- Tip points of the `Line`/`Filled Line` styles (one per bar,
appended without any `bh > 0` guard; engine.py lines 213-219,
257-263, 272-278). -/
def tipPoints (ctx : SpecCtx) (fidx : ℕ) : List (ℚ × ℚ) :=
  (List.range numBars).map fun i =>
    let bh := barH ctx i fidx
    let bx := ctx.startX + (i : ℤ) * ctx.barWidth + ctx.offset
    let cx := bx + ctx.drawnW.fdiv 2
    let y := if ctx.isTop then ctx.baseY + bh else ctx.baseY - bh
    ((cx : ℚ), (y : ℚ))

/-- The radial segments the `Circle` style draws on its RGBA image
(engine.py lines 197-210); only bars with `bh > 0` draw. -/
def circleOps (ctx : SpecCtx) (fidx : ℕ) : List DrawOp :=
  let cx : ℚ := ((ctx.startX + ctx.specWidth.fdiv 2 : ℤ) : ℚ)
  let cy : ℚ := (ctx.baseY : ℚ)
  let radius : ℚ := 100 * (ctx.size / 50)
  (List.range numBars).filterMap fun i =>
    let bh := barH ctx i fidx
    if 0 < bh then
      let d := ctx.dir i
      some (DrawOp.lineSeg
        [(cx + radius * d.1, cy + radius * d.2),
         (cx + (radius + (bh : ℚ)) * d.1, cy + (radius + (bh : ℚ)) * d.2)]
        ctx.drawnW)
    else none

/-- `make_spectrum_rgba(t)` (engine.py lines 180-355); see the section
comment for the control-flow mapping. -/
def makeSpectrumRgba (ctx : SpecCtx) (t : ℚ) : Except PyErr SpecFrame :=
  let fidx := (pyInt (t * 30)).toNat % ctx.numFrames
  if ctx.style = "Circle" ∨ ctx.style = "Line" ∨ ctx.style = "Filled Line" then
    if ctx.style = "Line" then
      let pts := tipPoints ctx fidx
      .ok ⟨.rgb, if 1 < pts.length then [DrawOp.lineSeg pts ctx.drawnW] else []⟩
    else if ctx.style = "Filled Line" then
      let pts := tipPoints ctx fidx
      .ok ⟨.rgb,
        if pts ≠ [] then
          [DrawOp.polygon (pts ++
            [((pts.getLastD (0, 0)).1, (ctx.baseY : ℚ)),
             ((pts.headD (0, 0)).1, (ctx.baseY : ℚ))])]
        else []⟩
    else
      if anyBarPos ctx fidx then .error .broadcastErr
      else .ok ⟨.rgba, circleOps ctx fidx⟩
  else
    if anyBarPos ctx fidx then .error (.unboundLocal "cx")
    else .error (.unboundLocal "pil_img")

/-- The spectrum clip construction of engine.py lines 357-362:
`VideoClip(make_frame, ...)` evaluates `make_frame(0)` to size the clip
(propagating any per-frame exception), and line 361 then references the
name `make_mask`, which is defined nowhere in the file — a
`NameError`.  Enabling the spectrum therefore always raises. -/
def spectrumClipSetup (ctx : SpecCtx) : Except PyErr Unit :=
  match makeSpectrumRgba ctx 0 with
  | .error e => .error e
  | .ok _ => .error (.nameError "make_mask")

/-! ## Layer stacking (`run_render`, engine.py lines 98-756)

`run_render` accumulates moviepy clips in the list `clips` and hands it
to `CompositeVideoClip`, which draws later entries over earlier ones.
The embedding records the order of the layer tags: background first
(line 98), spectrum appended (line 363), logo (line 387), progress bar
(line 410), title text (line 452), then — inside the lyrics block —
the dim layer inserted at index 1 (line 463), the lyrics background box
inserted at index 2 (line 523), and the lyric text clips appended last
(lines 580, 697, 736, 746). -/

inductive Layer
  | bg
  | dim
  | lyricsBox
  | spectrum
  | logo
  | progressbar
  | title
  | lyrics
  deriving DecidableEq

structure RenderCfg where
  spectrum : Bool
  specCtx : SpecCtx
  logo : Bool
  progressbar : Bool
  text : Bool
  lyricsFile : Bool
  lyricsBgDim : Bool
  lyricsBox : Bool
  subsNonempty : Bool

/-- The clip-list construction of `run_render`; enabling the spectrum
propagates the exception `spectrumClipSetup` raises, aborting the
render before compositing. -/
def buildClips (cfg : RenderCfg) : Except PyErr (List Layer) :=
  let clips := [Layer.bg]
  match (if cfg.spectrum then
      (spectrumClipSetup cfg.specCtx).map fun _ => [Layer.spectrum]
    else .ok []) with
  | .error e => .error e
  | .ok specLayers =>
    let clips := clips ++ specLayers
    let clips := clips ++ (if cfg.logo then [Layer.logo] else [])
    let clips := clips ++ (if cfg.progressbar then [Layer.progressbar] else [])
    let clips := clips ++ (if cfg.text then [Layer.title] else [])
    if cfg.lyricsFile then
      let clips := if cfg.lyricsBgDim then pyInsert clips 1 Layer.dim else clips
      if cfg.subsNonempty then
        let clips := if cfg.lyricsBox then pyInsert clips 2 Layer.lyricsBox else clips
        .ok (clips ++ [Layer.lyrics])
      else .ok clips
    else .ok clips

/-! ## Cancellation and outcome reporting
(`RenderLogger.bars_callback`, engine.py lines 30-41;
`Worker.run`, main.py lines 42-55; `handle_error`, main.py lines 1782-1792)

`bars_callback` polls the cancellation query at every progress tick and
raises `Exception("Render Cancelled")`; `Worker.run` catches any
exception and emits its message string; `handle_error` classifies the
message by the substring test `"Render Cancelled" in err_msg`. -/

/-- The cancellation poll of `RenderLogger.bars_callback`. -/
def barsCallback (cancelNow : Bool) : Except String Unit :=
  if cancelNow then .error "Render Cancelled" else .ok ()

/-- Modelled from the spec: the frame loop that drives per-frame
rendering lives in the external encoder (moviepy's `write_videofile`,
the spec's "external encoder"), which per spec section 5 polls
cancellation "once per frame via a caller-checkable flag" through the
progress logger and stops when the callback raises.  `cancel n` is the
flag's value at the boundary of frame `n`; the result is the list of
emitted frame indices and the final outcome. -/
def renderLoopFrom (cancel : ℕ → Bool) : ℕ → ℕ → List ℕ × Except String Unit
  | _, 0 => ([], .ok ())
  | start, fuel + 1 =>
    match barsCallback (cancel start) with
    | .error e => ([], .error e)
    | .ok _ =>
      let r := renderLoopFrom cancel (start + 1) fuel
      (start :: r.1, r.2)

/-- The whole frame loop over `total` frames. -/
def renderLoop (cancel : ℕ → Bool) (total : ℕ) : List ℕ × Except String Unit :=
  renderLoopFrom cancel 0 total

inductive UiOutcome
  | succeeded
  | cancelled
  | failed
  deriving DecidableEq

/-- `handle_error` (main.py lines 1782-1792): a message containing
`"Render Cancelled"` is reported as cancellation, anything else as a
render failure. -/
def handleError (msg : String) : UiOutcome :=
  if msgContains "Render Cancelled" msg then .cancelled else .failed

/-- `Worker.run` (main.py lines 49-55): success emits `success`, any
exception is caught and its message routed to `handle_error`. -/
def workerOutcome : Except String Unit → UiOutcome
  | .ok _ => .succeeded
  | .error msg => handleError msg

/-! ## Scrolling (teleprompter) lyrics
(`run_render`, engine.py lines 525-580)

`timings` records `(start, end, next_start)` per cue (the last cue's
`next_start` is `end + 5`); `get_v_idx` is the virtual index; each cue
gets a position closure `make_pos` and an opacity filter `fade_filter`. -/

/-- The `timings` list of engine.py lines 539-543. -/
def scrollTimings : List ((ℚ × ℚ) × String) → List (ℚ × ℚ × ℚ)
  | [] => []
  | ((s, e), _) :: rest =>
    let nextS := match rest with
      | [] => e + 5
      | ((s2, _), _) :: _ => s2
    (s, e, nextS) :: scrollTimings rest

/-- The scan of `get_v_idx` over `enumerate(timings)` (engine.py lines
546-552); `none` when no clause of the loop matched.  (A zero-length
cue would divide by zero in Python; such cues are outside the settled
statements.) -/
def getVIdxAux (t : ℚ) : ℕ → List (ℚ × ℚ × ℚ) → Option ℚ
  | _, [] => none
  | i, (s, e, ns) :: rest =>
    if s ≤ t ∧ t ≤ e then some ((i : ℚ) + (t - s) / (e - s))
    else if e < t ∧ t < ns then some ((i : ℚ) + 1)
    else getVIdxAux t (i + 1) rest

/-- `get_v_idx(t)` (engine.py lines 545-554). -/
def getVIdx (timings : List (ℚ × ℚ × ℚ)) (t : ℚ) : ℚ :=
  match getVIdxAux t 0 timings with
  | some v => v
  | none =>
    if timings ≠ [] ∧ (timings.getLastD (0, 0, 0)).2.1 ≤ t then (timings.length : ℚ)
    else -1

/-- The index the scroll closures actually read.  Python closures
capture variables, not values: `make_pos` and `fade_filter`
(engine.py lines 564-575) are defined inside `for i, ((s, e), txt) in
enumerate(subs)` and read `i` only when moviepy calls them during
rendering, after the loop has finished — so every cue's closures see
the final value `len(subs) - 1`. -/
def scrollCapturedIdx (subs : List ((ℚ × ℚ) × String)) : ℕ :=
  subs.length - 1

/-- `make_pos(t)` of the scroll clip built for cue `j` (engine.py lines
564-567): the vertical coordinate `int(cy + (i - v) * line_spacing)`,
with `i` late-bound as `scrollCapturedIdx subs` (`j` does not enter). -/
def makePos (cy lineSpacing : ℚ) (subs : List ((ℚ × ℚ) × String))
    (j : ℕ) (t : ℚ) : ℤ :=
  pyInt (cy + ((scrollCapturedIdx subs : ℚ) - getVIdx (scrollTimings subs) t) * lineSpacing)

/-- The opacity `fade_filter` applies for cue `j` (engine.py lines
569-575): `max(0, 1 - |i - v|)`, with the same late-bound `i`. -/
def fadeOpacity (subs : List ((ℚ × ℚ) × String)) (j : ℕ) (t : ℚ) : ℚ :=
  max 0 (1 - |(scrollCapturedIdx subs : ℚ) - getVIdx (scrollTimings subs) t|)

/-! ## Lyric animation mode selection (`run_render`, engine.py lines
525, 582, 699, 738)

The lyric block is an `if/elif/elif/else` chain on the three mode
flags; bounce additionally requires the decoded audio buffer. -/

inductive LyricsMode
  | scrolling
  | karaoke
  | bounce
  | static
  deriving DecidableEq

/-- The mode the chain renders. -/
def selectLyricsMode (scrolling karaoke bounce audioData : Bool) : LyricsMode :=
  if scrolling then .scrolling
  else if karaoke then .karaoke
  else if bounce && audioData then .bounce
  else .static

/-- Closed form of `lrcAssemble` on well-formed input (every entry has
nonempty text and starts before `dur`): each cue ends at the next
entry's start, the last at `dur`. -/
def cuesOf (dur : ℚ) : List (ℚ × String) → List ((ℚ × ℚ) × String)
  | [] => []
  | [(s, t)] => [((s, dur), t)]
  | (s, t) :: (s2, t2) :: rest => ((s, s2), t) :: cuesOf dur ((s2, t2) :: rest)

/-! ## Concrete inputs used to settle the claims -/

/-- A 50-bar, 2-frame spectrogram of all-zero magnitudes. -/
def zeroHeights : List (List ℚ) :=
  List.replicate 50 (List.replicate 2 0)

/-- Stub for the trigonometric direction oracle (its values are never
reached in the settled statements). -/
def specDirStub : ℕ → ℚ × ℚ := fun _ => (0, 0)

/-- Default-valued spectrum options with style `Bars`. -/
def optsBars : SpecOptions :=
  ⟨"Bars", [0, 255, 255], 50, 80, .named "Bottom", specDirStub⟩

/-- Default-valued spectrum options with style `Line`. -/
def optsLine : SpecOptions :=
  ⟨"Line", [0, 255, 255], 50, 80, .named "Bottom", specDirStub⟩

/-- 1920x1080 `Bars` context over the all-zero spectrogram. -/
def ctxBarsZero : SpecCtx := mkSpecCtx 1920 1080 optsBars zeroHeights 2

/-- 1920x1080 `Line` context over the all-zero spectrogram. -/
def ctxLineZero : SpecCtx := mkSpecCtx 1920 1080 optsLine zeroHeights 2

/-- Does a per-frame draw result carry an all-zero alpha mask (no draw
call recorded, no exception)? -/
def drawsNothing : Except PyErr SpecFrame → Bool
  | .ok f => f.ops.isEmpty
  | .error _ => false

/-- A configuration with spectrum disabled and title text, lyrics,
dim layer and background box all enabled. -/
def cfgFull : RenderCfg :=
  ⟨false, ctxBarsZero, false, false, true, true, true, true, true⟩

/-- Two scroll cues: 0-2s and 2-4s. -/
def subsTwo : List ((ℚ × ℚ) × String) := [((0, 2), "A"), ((2, 4), "B")]

/-- A raw height sequence with a single initial spike. -/
def rawSpike : ℕ → ℚ := fun n => if n = 0 then 10 else 0

/-- A cancellation flag that turns true at frame 2. -/
def cancelAtTwo : ℕ → Bool := fun n => decide (2 ≤ n)

/-! ## Evaluation lemmas for concrete `.lrc` lines -/

theorem pyFloat_00 : pyFloat ['0', '0'] = some 0 := by
  have hs : pyStripChars ['0', '0'] = ['0', '0'] := by decide
  have h1 : splitChars '.' ['0', '0'] = [['0', '0']] := by decide
  have h2 : digitsVal ['0', '0'] = some 0 := by decide
  simp only [pyFloat, hs]
  simp [h1, h2]

theorem pyFloat_05 : pyFloat ['0', '5'] = some 5 := by
  have hs : pyStripChars ['0', '5'] = ['0', '5'] := by decide
  have h1 : splitChars '.' ['0', '5'] = [['0', '5']] := by decide
  have h2 : digitsVal ['0', '5'] = some 5 := by decide
  simp only [pyFloat, hs]
  simp [h1, h2]

theorem lex_hello : lexLrcLine "[00:00]Hello" = some (some (0, "Hello")) := by
  have hs : pyStripChars "[00:00]Hello".toList = "[00:00]Hello".toList := by decide
  have hidx : ("[00:00]Hello".toList).findIdx (· = ']') = 6 := by decide
  have hsp : splitChars ':' ['0', '0', ':', '0', '0'] = [['0', '0'], ['0', '0']] := by decide
  have hc : (pyStripChars ['H', 'e', 'l', 'l', 'o']).asString = "Hello" := by decide
  simp only [lexLrcLine, hs, hidx]
  rw [if_pos (by decide)]
  norm_num [hsp, hc, pyFloat_00]

theorem lex_world : lexLrcLine "[00:05]World" = some (some (5, "World")) := by
  have hs : pyStripChars "[00:05]World".toList = "[00:05]World".toList := by decide
  have hidx : ("[00:05]World".toList).findIdx (· = ']') = 6 := by decide
  have hsp : splitChars ':' ['0', '0', ':', '0', '5'] = [['0', '0'], ['0', '5']] := by decide
  have hc : (pyStripChars ['W', 'o', 'r', 'l', 'd']).asString = "World" := by decide
  simp only [lexLrcLine, hs, hidx]
  rw [if_pos (by decide)]
  norm_num [hsp, hc, pyFloat_00, pyFloat_05]

theorem parse_hello_world :
    parseLrc 8 ["[00:00]Hello", "[00:05]World"] =
      [((0, 5), "Hello"), ((5, 8), "World")] := by
  have h : lrcLex ["[00:00]Hello", "[00:05]World"] = some [(0, "Hello"), (5, "World")] := by
    simp [lrcLex, lex_hello, lex_world]
  simp only [parseLrc, h]
  norm_num [lrcAssemble]
  simp

/-! ## General lemmas about `lrcAssemble` -/

theorem lrc_last_cue (dur : ℚ) (ps : List (ℚ × String)) (s : ℚ) (txt : String)
    (htxt : txt ≠ "") (hs : s < dur) :
    ∃ front, lrcAssemble dur (ps ++ [(s, txt)]) = front ++ [((s, dur), txt)] := by
  induction ps with
  | nil =>
    simp only [List.nil_append, lrcAssemble, min_self]
    rw [if_neg htxt, if_pos hs]
    exact ⟨[], rfl⟩
  | cons p ps ih =>
    obtain ⟨front, hf⟩ := ih
    obtain ⟨s0, t0⟩ := p
    simp only [List.cons_append, lrcAssemble, List.append_eq]
    rw [hf]
    split_ifs with h1 h2
    · exact ⟨front, rfl⟩
    · exact ⟨_ :: front, rfl⟩
    · exact ⟨front, rfl⟩

theorem lrcAssemble_eq_cuesOf (dur : ℚ) (ps : List (ℚ × String))
    (htxt : ∀ p ∈ ps, p.2 ≠ "") (hlt : ∀ p ∈ ps, p.1 < dur) :
    lrcAssemble dur ps = cuesOf dur ps := by
  induction ps with
  | nil => rfl
  | cons p ps ih =>
    obtain ⟨s0, t0⟩ := p
    have h0 : t0 ≠ "" := htxt (s0, t0) (List.mem_cons_self _ _)
    have hl0 : s0 < dur := hlt (s0, t0) (List.mem_cons_self _ _)
    have ih' := ih (fun p hp => htxt p (List.mem_cons_of_mem _ hp))
      (fun p hp => hlt p (List.mem_cons_of_mem _ hp))
    cases ps with
    | nil =>
      simp only [lrcAssemble, cuesOf]
      rw [if_neg h0, if_pos hl0, min_self]
    | cons q qs =>
      obtain ⟨s2, t2⟩ := q
      have hl2 : s2 < dur := hlt (s2, t2) (by simp)
      simp only [lrcAssemble, cuesOf] at ih' ⊢
      rw [if_neg h0, if_pos hl0, min_eq_left (le_of_lt hl2), ih']

theorem cuesOf_starts (dur : ℚ) (ps : List (ℚ × String)) :
    (cuesOf dur ps).map (fun c => c.1.1) = ps.map Prod.fst := by
  induction ps with
  | nil => rfl
  | cons p ps ih =>
    obtain ⟨s0, t0⟩ := p
    cases ps with
    | nil => rfl
    | cons q qs =>
      obtain ⟨s2, t2⟩ := q
      simpa [cuesOf] using ih

theorem cuesOf_head_start (dur : ℚ) (s2 : ℚ) (t2 : String) (qs : List (ℚ × String)) :
    ∀ y ∈ (cuesOf dur ((s2, t2) :: qs)).head?, y.1.1 = s2 := by
  cases qs with
  | nil => simp [cuesOf]
  | cons r rs =>
    obtain ⟨s3, t3⟩ := r
    simp [cuesOf]

theorem cuesOf_sorted (dur : ℚ) (ps : List (ℚ × String))
    (hsort : List.Chain' (fun a b : ℚ × String => a.1 ≤ b.1) ps) :
    List.Chain' (fun a b : (ℚ × ℚ) × String => a.1.1 ≤ b.1.1) (cuesOf dur ps) := by
  induction ps with
  | nil => exact List.chain'_nil
  | cons p ps ih =>
    obtain ⟨s0, t0⟩ := p
    cases ps with
    | nil => simp [cuesOf]
    | cons q qs =>
      obtain ⟨s2, t2⟩ := q
      rw [List.chain'_cons] at hsort
      have ih' := ih hsort.2
      show List.Chain' _ (((s0, s2), t0) :: cuesOf dur ((s2, t2) :: qs))
      rw [List.chain'_cons']
      refine ⟨fun y hy => ?_, ih'⟩
      rw [cuesOf_head_start dur s2 t2 qs y hy]
      exact hsort.1

theorem cuesOf_chain (dur : ℚ) (ps : List (ℚ × String)) :
    List.Chain' (fun a b : (ℚ × ℚ) × String => a.1.2 = b.1.1) (cuesOf dur ps) := by
  induction ps with
  | nil => exact List.chain'_nil
  | cons p ps ih =>
    obtain ⟨s0, t0⟩ := p
    cases ps with
    | nil => simp [cuesOf]
    | cons q qs =>
      obtain ⟨s2, t2⟩ := q
      show List.Chain' _ (((s0, s2), t0) :: cuesOf dur ((s2, t2) :: qs))
      rw [List.chain'_cons']
      exact ⟨fun y hy => (cuesOf_head_start dur s2 t2 qs y hy).symm, ih⟩

theorem starts_lower (lo : ℚ) (l : List (ℚ × String))
    (hc : List.Chain' (fun a b : ℚ × String => a.1 ≤ b.1) l)
    (hlo : ∀ y ∈ l.head?, lo ≤ y.1) : ∀ x ∈ l, lo ≤ x.1 := by
  induction l generalizing lo with
  | nil => intro x hx; cases hx
  | cons a rest ih =>
    intro x hx
    have ha : lo ≤ a.1 := hlo a rfl
    rcases List.mem_cons.mp hx with h | h
    · exact h ▸ ha
    · rw [List.chain'_cons'] at hc
      exact ih lo hc.2 (fun y hy => le_trans ha (hc.1 y hy)) x h

theorem cuesOf_nonoverlap (dur : ℚ) (ps : List (ℚ × String))
    (hsort : List.Chain' (fun a b : ℚ × String => a.1 ≤ b.1) ps) :
    List.Pairwise (fun a b : (ℚ × ℚ) × String => a.1.2 ≤ b.1.1) (cuesOf dur ps) := by
  induction ps with
  | nil => exact List.Pairwise.nil
  | cons p ps ih =>
    obtain ⟨s0, t0⟩ := p
    cases ps with
    | nil => simp [cuesOf]
    | cons q qs =>
      obtain ⟨s2, t2⟩ := q
      rw [List.chain'_cons] at hsort
      have ih' := ih hsort.2
      show List.Pairwise _ (((s0, s2), t0) :: cuesOf dur ((s2, t2) :: qs))
      refine List.Pairwise.cons (fun c hc => ?_) ih'
      have hmem : c.1.1 ∈ ((s2, t2) :: qs).map Prod.fst := by
        rw [← cuesOf_starts dur ((s2, t2) :: qs)]
        exact List.mem_map_of_mem _ hc
      obtain ⟨x, hx, hxx⟩ := List.mem_map.mp hmem
      have := starts_lower s2 ((s2, t2) :: qs) hsort.2 (by simp) x hx
      simpa [hxx] using this

/-! ## Claims C3 and C4: the `.lrc` cue list -/

/-- **C3 (amended).** The last cue produced by the bracketed-timestamp
parser ends at the render duration, not at its start plus a fixed
10-second tail: for every `parsed` list whose final entry has nonempty
text and starts before `dur`, that entry yields the final cue
`((s, dur), txt)`; in particular the file `[00:00]Hello`,
`[00:05]World` at duration 8 yields exactly
`[((0,5),"Hello"), ((5,8),"World")]`. -/
theorem c3_lrc_last_cue_ends_at_duration (dur : ℚ) (ps : List (ℚ × String))
    (s : ℚ) (txt : String) (htxt : txt ≠ "") (hs : s < dur) :
    (∃ front, lrcAssemble dur (ps ++ [(s, txt)]) = front ++ [((s, dur), txt)]) ∧
    parseLrc 8 ["[00:00]Hello", "[00:05]World"] = [((0, 5), "Hello"), ((5, 8), "World")] :=
  ⟨lrc_last_cue dur ps s txt htxt hs, parse_hello_world⟩

/-- **C3 witness**: the theorem applied to a single-cue file at start 0
and duration 20. -/
theorem c3_witness :
    (∃ front, lrcAssemble 20 ([] ++ [(0, "X")]) = front ++ [((0, 20), "X")]) ∧
    parseLrc 8 ["[00:00]Hello", "[00:05]World"] = [((0, 5), "Hello"), ((5, 8), "World")] :=
  c3_lrc_last_cue_ends_at_duration 20 [] 0 "X" (by simp) (by norm_num)

/-- **C3 counterexample**: for the file `[00:00]Hello` at render
duration 20 the code yields the cue `(0, 20)`, whereas the claimed
`start + 10` tail clamped to the duration would give end time 10. -/
theorem c3_counterexample :
    parseLrc 20 ["[00:00]Hello"] = [((0, 20), "Hello")] ∧ (20 : ℚ) ≠ min (0 + 10) 20 := by
  constructor
  · have h : lrcLex ["[00:00]Hello"] = some [(0, "Hello")] := by
      simp [lrcLex, lex_hello]
    simp only [parseLrc, h]
    norm_num [lrcAssemble]
    simp
  · norm_num

/-- **C4 (amended).** For every lexed `.lrc` entry list whose
timestamps are non-decreasing in file order, with nonempty text and
start times below the render duration, the assembled cue list is sorted
by start time, each cue's end equals the next cue's start, and the cues
are pairwise non-overlapping.  (The parser performs no sorting, so the
unconditional claim fails; see the counterexample.) -/
theorem c4_cue_list_ordered (dur : ℚ) (ps : List (ℚ × String))
    (hsort : List.Chain' (fun a b : ℚ × String => a.1 ≤ b.1) ps)
    (htxt : ∀ p ∈ ps, p.2 ≠ "") (hlt : ∀ p ∈ ps, p.1 < dur) :
    List.Chain' (fun a b : (ℚ × ℚ) × String => a.1.1 ≤ b.1.1) (lrcAssemble dur ps) ∧
    List.Chain' (fun a b : (ℚ × ℚ) × String => a.1.2 = b.1.1) (lrcAssemble dur ps) ∧
    List.Pairwise (fun a b : (ℚ × ℚ) × String => a.1.2 ≤ b.1.1) (lrcAssemble dur ps) := by
  rw [lrcAssemble_eq_cuesOf dur ps htxt hlt]
  exact ⟨cuesOf_sorted dur ps hsort, cuesOf_chain dur ps, cuesOf_nonoverlap dur ps hsort⟩

/-- **C4 witness**: the theorem applied to the two-entry list of the
spec's scenario. -/
theorem c4_witness :
    List.Chain' (fun a b : (ℚ × ℚ) × String => a.1.1 ≤ b.1.1)
      (lrcAssemble 8 [(0, "Hello"), (5, "World")]) ∧
    List.Chain' (fun a b : (ℚ × ℚ) × String => a.1.2 = b.1.1)
      (lrcAssemble 8 [(0, "Hello"), (5, "World")]) ∧
    List.Pairwise (fun a b : (ℚ × ℚ) × String => a.1.2 ≤ b.1.1)
      (lrcAssemble 8 [(0, "Hello"), (5, "World")]) :=
  c4_cue_list_ordered 8 [(0, "Hello"), (5, "World")]
    (by norm_num [List.chain'_cons, List.chain'_singleton])
    (by simp) (by norm_num)

/-- **C4 counterexample**: a file whose timestamps are out of order —
`[00:05]World` before `[00:00]Hello` at duration 8 — produces the cue
list `[((5,0),"World"), ((0,8),"Hello")]`, which is not sorted by start
time (and the first cue even ends before it starts). -/
theorem c4_counterexample :
    parseLrc 8 ["[00:05]World", "[00:00]Hello"] = [((5, 0), "World"), ((0, 8), "Hello")] ∧
    ¬ List.Chain' (fun a b : (ℚ × ℚ) × String => a.1.1 ≤ b.1.1)
      (parseLrc 8 ["[00:05]World", "[00:00]Hello"]) := by
  have h : parseLrc 8 ["[00:05]World", "[00:00]Hello"] =
      [((5, 0), "World"), ((0, 8), "Hello")] := by
    have hl : lrcLex ["[00:05]World", "[00:00]Hello"] = some [(5, "World"), (0, "Hello")] := by
      simp [lrcLex, lex_hello, lex_world]
    simp only [parseLrc, hl]
    norm_num [lrcAssemble]
    simp
  refine ⟨h, ?_⟩
  rw [h, List.chain'_cons]
  push_neg
  intro h5
  norm_num at h5

/-! ## Claim C8: smoothing deltas -/

/-- The smoothed delta satisfies the same recurrence as the smoothing
itself, so any uniform bound on the raw deltas bounds it. -/
theorem smoothedSeq_delta_le (alpha : ℚ) (raw : ℕ → ℚ) (D : ℚ)
    (h0 : 0 ≤ alpha) (h1 : alpha ≤ 1) :
    ∀ t, (∀ j, j ≤ t → |raw (j + 1) - raw j| ≤ D) →
      |smoothedSeq alpha raw (t + 1) - smoothedSeq alpha raw t| ≤ D := by
  intro t
  induction t with
  | zero =>
    intro h
    have hr := h 0 (le_refl 0)
    have heq : smoothedSeq alpha raw 1 - smoothedSeq alpha raw 0
        = alpha * (raw 1 - raw 0) := by
      simp [smoothedSeq]; ring
    rw [heq, abs_mul, abs_of_nonneg h0]
    have hD : 0 ≤ D := le_trans (abs_nonneg _) hr
    calc alpha * |raw 1 - raw 0| ≤ 1 * D :=
          mul_le_mul h1 hr (abs_nonneg _) (by norm_num)
      _ = D := one_mul D
  | succ t ih =>
    intro h
    have hb := ih (fun j hj => h j (le_trans hj (Nat.le_succ t)))
    have ha := h (t + 1) (le_refl _)
    have hsplit : smoothedSeq alpha raw (t + 2) - smoothedSeq alpha raw (t + 1)
        = alpha * (raw (t + 2) - raw (t + 1))
          + (1 - alpha) * (smoothedSeq alpha raw (t + 1) - smoothedSeq alpha raw t) := by
      simp [smoothedSeq]; ring
    have e1 : |alpha * (raw (t + 2) - raw (t + 1))|
        = alpha * |raw (t + 2) - raw (t + 1)| := by
      rw [abs_mul, abs_of_nonneg h0]
    have e2 : |(1 - alpha) * (smoothedSeq alpha raw (t + 1) - smoothedSeq alpha raw t)|
        = (1 - alpha) * |smoothedSeq alpha raw (t + 1) - smoothedSeq alpha raw t| := by
      rw [abs_mul, abs_of_nonneg (show (0 : ℚ) ≤ 1 - alpha by linarith)]
    rw [hsplit]
    calc |alpha * (raw (t + 2) - raw (t + 1))
          + (1 - alpha) * (smoothedSeq alpha raw (t + 1) - smoothedSeq alpha raw t)|
        ≤ |alpha * (raw (t + 2) - raw (t + 1))|
          + |(1 - alpha) * (smoothedSeq alpha raw (t + 1) - smoothedSeq alpha raw t)| :=
          abs_add _ _
      _ = alpha * |raw (t + 2) - raw (t + 1)|
          + (1 - alpha) * |smoothedSeq alpha raw (t + 1) - smoothedSeq alpha raw t| := by
          rw [e1, e2]
      _ ≤ alpha * D + (1 - alpha) * D :=
          add_le_add (mul_le_mul_of_nonneg_left ha h0)
            (mul_le_mul_of_nonneg_left hb (by linarith))
      _ = D := by ring

/-- **C8 (amended).** Smoothness 0 leaves the raw sequence unchanged,
and for every smoothness in (0, 100] the smoothed frame-to-frame delta
is bounded by any uniform bound on the raw frame-to-frame deltas up to
that frame (the pointwise bound of the original claim fails; see the
counterexample). -/
theorem c8_smoothing (s : ℚ) (raw : ℕ → ℚ) (D : ℚ) (t : ℕ)
    (hs : 0 < s) (hs100 : s ≤ 100)
    (h : ∀ j, j ≤ t → |raw (j + 1) - raw j| ≤ D) :
    (∀ r : ℕ → ℚ, applySmoothness 0 r = r) ∧
    |applySmoothness s raw (t + 1) - applySmoothness s raw t| ≤ D := by
  constructor
  · intro r; simp [applySmoothness]
  · have hd1 : s / 100 ≤ 1 := (div_le_one (by norm_num)).mpr hs100
    have hd0 : 0 ≤ s / 100 := div_nonneg hs.le (by norm_num)
    simp only [applySmoothness, if_pos hs]
    exact smoothedSeq_delta_le (1 - s / 100) raw D (by linarith) (by linarith) t h

/-- **C8 witness**: the theorem applied at smoothness 50 to the spike
sequence with delta bound 10. -/
theorem c8_witness :
    (∀ r : ℕ → ℚ, applySmoothness 0 r = r) ∧
    |applySmoothness 50 rawSpike (0 + 1) - applySmoothness 50 rawSpike 0| ≤ 10 :=
  c8_smoothing 50 rawSpike 10 0 (by norm_num) (by norm_num)
    (fun j hj => by rw [Nat.le_zero.mp hj]; norm_num [rawSpike])

/-- **C8 counterexample**: at smoothness 50 the spike sequence
`10, 0, 0, ...` has smoothed delta 5/2 at frame 2 while the raw delta
there is 0 — the claimed pointwise bound fails. -/
theorem c8_counterexample :
    |applySmoothness 50 rawSpike 2 - applySmoothness 50 rawSpike 1| = 5 / 2 ∧
    |rawSpike 2 - rawSpike 1| = 0 ∧ ¬ ((5 : ℚ) / 2 ≤ 0) := by
  refine ⟨?_, by norm_num [rawSpike], by norm_num⟩
  norm_num [applySmoothness, smoothedSeq, rawSpike]

/-! ## Claim C9: derived output resolution -/

theorem evenUp_toNat_even (d : ℤ) : 2 ∣ (evenUp d).toNat := by
  have he : 2 * d.fdiv 2 + d.fmod 2 = d := Int.fdiv_add_fmod d 2
  have hlt : d.fmod 2 < 2 := Int.fmod_lt_of_pos d (by norm_num)
  have hge : 0 ≤ d.fmod 2 := Int.fmod_nonneg' d (by norm_num)
  unfold evenUp
  split_ifs with h
  · omega
  · omega

theorem evenUp_of_even {d : ℤ} (h : 2 ∣ d) : evenUp d = d := by
  have he : 2 * d.fdiv 2 + d.fmod 2 = d := Int.fdiv_add_fmod d 2
  have hlt : d.fmod 2 < 2 := Int.fmod_lt_of_pos d (by norm_num)
  have hge : 0 ≤ d.fmod 2 := Int.fmod_nonneg' d (by norm_num)
  unfold evenUp
  split_ifs with hne
  · omega
  · rfl

theorem baseResMap_even (res : String) : (2 : ℤ) ∣ (baseResMap res : ℤ) := by
  unfold baseResMap
  split_ifs <;> decide

/-- **C9 (amended).** For every resolution tier and positive aspect
ratio `arW:arH`, both derived dimensions are even; the HEIGHT equals
the tier's fixed pixel height only for landscape or square ratios
(`arH ≤ arW`), while for portrait ratios it is the WIDTH that equals
the tier height (the unconditional height claim fails; see the
counterexample). -/
theorem c9_resolution (res : String) (arW arH : ℕ) (hH : 0 < arH) :
    2 ∣ (deriveWH res arW arH).1 ∧ 2 ∣ (deriveWH res arW arH).2 ∧
    (arH ≤ arW → (deriveWH res arW arH).2 = baseResMap res) ∧
    (arW < arH → (deriveWH res arW arH).1 = baseResMap res) := by
  have hiff : (1 : ℚ) ≤ (arW : ℚ) / (arH : ℚ) ↔ arH ≤ arW := by
    rw [one_le_div (by exact_mod_cast hH)]
    exact Nat.cast_le
  have hfix : (evenUp ((baseResMap res : ℕ) : ℤ)).toNat = baseResMap res := by
    rw [evenUp_of_even (baseResMap_even res)]
    exact Int.toNat_natCast _
  by_cases hr : (1 : ℚ) ≤ (arW : ℚ) / (arH : ℚ)
  · refine ⟨?_, ?_, fun _ => ?_, fun hlt => absurd (hiff.mp hr) (by omega)⟩
    · simp only [deriveWH, if_pos hr]
      exact evenUp_toNat_even _
    · simp only [deriveWH, if_pos hr]
      exact evenUp_toNat_even _
    · simp only [deriveWH, if_pos hr]
      exact hfix
  · refine ⟨?_, ?_, fun hle => absurd hle (by simpa [hiff] using hr), fun _ => ?_⟩
    · simp only [deriveWH, if_neg hr]
      exact evenUp_toNat_even _
    · simp only [deriveWH, if_neg hr]
      exact evenUp_toNat_even _
    · simp only [deriveWH, if_neg hr]
      exact hfix

/-- **C9 witness**: the theorem applied to tier 1080p with ratio 16:9. -/
theorem c9_witness :
    2 ∣ (deriveWH "1080p" 16 9).1 ∧ 2 ∣ (deriveWH "1080p" 16 9).2 ∧
    (9 ≤ 16 → (deriveWH "1080p" 16 9).2 = baseResMap "1080p") ∧
    (16 < 9 → (deriveWH "1080p" 16 9).1 = baseResMap "1080p") :=
  c9_resolution "1080p" 16 9 (by norm_num)

/-- **C9 counterexample**: tier 1080p with the portrait ratio 9:16
yields 1080x1920 — the height is 1920, not the tier height 1080. -/
theorem c9_counterexample :
    deriveWH "1080p" 9 16 = (1080, 1920) ∧ (1920 : ℕ) ≠ 1080 := by
  have hb : baseResMap "1080p" = 1080 := by simp [baseResMap]
  constructor
  · simp only [deriveWH, hb]
    norm_num [pyInt, evenUp, Int.fmod]
    decide
  · norm_num

/-! ## Claims C10, C5, C6, C2, C1, C7 -/

/-- **C10.** When more than one of the lyric animation flags
{scrolling, karaoke, bounce} is set, the engine raises no error and
renders exactly one mode, by the fixed priority scrolling over karaoke
over bounce; with no flag set it falls back to static per-cue text.
(The selection is a total function — the chain at engine.py lines
525/582/699/738 contains no raise.) -/
theorem c10_mode_priority (s k b ad : Bool)
    (h : 2 ≤ (if s then 1 else 0) + (if k then 1 else 0) + (if b then 1 else 0)) :
    selectLyricsMode s k b ad = (if s then .scrolling else .karaoke) ∧
    selectLyricsMode false false false ad = .static := by
  constructor
  · cases s <;> cases k <;> cases b <;> simp_all [selectLyricsMode]
  · simp [selectLyricsMode]

/-- **C10 witness**: the theorem applied with scrolling and karaoke
both enabled. -/
theorem c10_witness :
    selectLyricsMode true true false false =
      (if true then LyricsMode.scrolling else LyricsMode.karaoke) ∧
    selectLyricsMode false false false false = LyricsMode.static :=
  c10_mode_priority true true false false (by decide)

/-- The frame loop stops at the first frame whose cancellation poll
raises, having emitted exactly the earlier frames. -/
theorem renderLoopFrom_cancel (cancel : ℕ → Bool) :
    ∀ (k fuel start : ℕ), k < fuel →
      (∀ j, j < k → cancel (start + j) = false) → cancel (start + k) = true →
      renderLoopFrom cancel start fuel = (List.range' start k, .error "Render Cancelled") := by
  intro k
  induction k with
  | zero =>
    intro fuel start hk h0 hc
    cases fuel with
    | zero => omega
    | succ f =>
      have hc' : cancel start = true := by simpa using hc
      simp [renderLoopFrom, barsCallback, hc', List.range']
  | succ k ih =>
    intro fuel start hk h0 hc
    cases fuel with
    | zero => omega
    | succ f =>
      have hc0 : cancel start = false := by simpa using h0 0 (Nat.succ_pos k)
      have hrec := ih f (start + 1) (by omega)
        (fun j hj => by
          have := h0 (j + 1) (by omega)
          rwa [show start + (j + 1) = start + 1 + j by omega] at this)
        (by rwa [show start + 1 + k = start + (k + 1) by omega])
      simp only [renderLoopFrom, barsCallback, hc0, if_neg Bool.false_ne_true]
      rw [hrec]
      simp [List.range']

/-- **C5.** When the cancellation flag is first observed true at frame
`k` of a `total`-frame job, the pipeline emits exactly frames
`0..k-1` and stops with the exception message `"Render Cancelled"`,
which the caller-side classifier reports as `cancelled` — distinct
from the `failed` outcome that any encoder error message (one not
containing the marker substring) produces. -/
theorem c5_cancellation (cancel : ℕ → Bool) (total k : ℕ) (hk : k < total)
    (h0 : ∀ j, j < k → cancel j = false) (hc : cancel k = true) :
    renderLoop cancel total = (List.range k, .error "Render Cancelled") ∧
    workerOutcome (renderLoop cancel total).2 = .cancelled ∧
    workerOutcome (.error "ffmpeg error: broken pipe") = .failed ∧
    UiOutcome.cancelled ≠ UiOutcome.failed := by
  have h1 : renderLoop cancel total = (List.range' 0 k, .error "Render Cancelled") :=
    renderLoopFrom_cancel cancel k total 0 hk (by simpa using h0) (by simpa using hc)
  refine ⟨by rw [h1, List.range_eq_range'], ?_, by decide, by decide⟩
  rw [h1]
  show workerOutcome (.error "Render Cancelled") = .cancelled
  decide

/-- **C5 witness**: the theorem applied to a 6-frame job whose flag
turns true at frame 2. -/
theorem c5_witness :
    renderLoop cancelAtTwo 6 = (List.range 2, .error "Render Cancelled") ∧
    workerOutcome (renderLoop cancelAtTwo 6).2 = .cancelled ∧
    workerOutcome (.error "ffmpeg error: broken pipe") = .failed ∧
    UiOutcome.cancelled ≠ UiOutcome.failed :=
  c5_cancellation cancelAtTwo 6 2 (by decide) (by decide) (by decide)

/-- **C6 (code bug).** In scrolling mode the virtual index itself
behaves as specified (`v(1/2) = 1/4` for two 2-second cues), but the
per-cue closures late-bind the loop variable `i`, so cue 0 is drawn at
`int((lastIndex - v) * lineHeight) = 45` instead of the specified
`(0 - v) * lineHeight = -15`, with opacity `1/4` instead of the
specified `3/4` (cy = 0, lineHeight = 60, t = 1/2).
The preview renderer in main.py lines 515-521 computes the specified
per-cue `(i - v)` offsets, confirming the spec is the intent. -/
theorem c6_scroll_closure_bug :
    getVIdx (scrollTimings subsTwo) (1 / 2) = 1 / 4 ∧
    makePos 0 60 subsTwo 0 (1 / 2) = 45 ∧
    pyInt (0 + ((0 : ℚ) - getVIdx (scrollTimings subsTwo) (1 / 2)) * 60) = -15 ∧
    fadeOpacity subsTwo 0 (1 / 2) = 1 / 4 ∧
    max 0 (1 - |(0 : ℚ) - getVIdx (scrollTimings subsTwo) (1 / 2)|) = 3 / 4 ∧
    (45 : ℤ) ≠ -15 ∧ (1 / 4 : ℚ) ≠ 3 / 4 := by
  have hv : getVIdx (scrollTimings subsTwo) (1 / 2) = 1 / 4 := by
    norm_num [getVIdx, getVIdxAux, scrollTimings, subsTwo]
  have hlen : subsTwo.length = 2 := by simp [subsTwo]
  refine ⟨hv, ?_, ?_, ?_, ?_, by decide, by norm_num⟩
  · simp only [makePos, scrollCapturedIdx, hv, hlen]
    norm_num [pyInt]
  · rw [hv]
    norm_num [pyInt]
  · simp only [fadeOpacity, scrollCapturedIdx, hv, hlen]
    rw [show ((2 - 1 : ℕ) : ℚ) - 1 / 4 = 3 / 4 by norm_num]
    rw [abs_of_nonneg (by norm_num : (0 : ℚ) ≤ 3 / 4)]
    norm_num
  · rw [hv]
    rw [show (0 : ℚ) - 1 / 4 = -(1 / 4) by norm_num, abs_neg,
      abs_of_nonneg (by norm_num : (0 : ℚ) ≤ 1 / 4)]
    norm_num

/-- **C2 (amended).** For every configuration with the spectrum
disabled (enabling it aborts before compositing, see C1) and the dim
layer enabled, the compositing order is background, dim, box, logo,
progress bar, TITLE TEXT, then LYRICS TEXT: the title is appended
before the lyrics block runs, so the lyrics text is drawn over the
title, not under it as claimed. -/
theorem c2_layer_order (cfg : RenderCfg) (h1 : cfg.spectrum = false)
    (h2 : cfg.lyricsFile = true) (h3 : cfg.subsNonempty = true)
    (h4 : cfg.lyricsBgDim = true) :
    buildClips cfg = .ok ([Layer.bg, Layer.dim] ++
      (if cfg.lyricsBox then [Layer.lyricsBox] else []) ++
      (if cfg.logo then [Layer.logo] else []) ++
      (if cfg.progressbar then [Layer.progressbar] else []) ++
      (if cfg.text then [Layer.title] else []) ++ [Layer.lyrics]) := by
  obtain ⟨sp, ctx, lg, pb, tx, lf, dim, box, subs⟩ := cfg
  simp only at h1 h2 h3 h4
  subst h1 h2 h3 h4
  cases lg <;> cases pb <;> cases tx <;> cases box <;> rfl

/-- **C2 witness**: the amended order theorem applied to `cfgFull`. -/
theorem c2_witness :
    buildClips cfgFull = .ok ([Layer.bg, Layer.dim] ++
      (if cfgFull.lyricsBox then [Layer.lyricsBox] else []) ++
      (if cfgFull.logo then [Layer.logo] else []) ++
      (if cfgFull.progressbar then [Layer.progressbar] else []) ++
      (if cfgFull.text then [Layer.title] else []) ++ [Layer.lyrics]) :=
  c2_layer_order cfgFull rfl rfl rfl rfl

/-- **C2 counterexample**: with title text and lyrics both enabled
(and dim and box on), the composited list is
`[bg, dim, box, title, lyrics]` — the title text occurs BEFORE the
lyrics text, so the claimed "title text drawn over the lyrics text"
is false (later entries draw over earlier ones). -/
theorem c2_counterexample :
    buildClips cfgFull =
      .ok [Layer.bg, Layer.dim, Layer.lyricsBox, Layer.title, Layer.lyrics] ∧
    [Layer.bg, Layer.dim, Layer.lyricsBox, Layer.title, Layer.lyrics].indexOf Layer.title <
      [Layer.bg, Layer.dim, Layer.lyricsBox, Layer.title, Layer.lyrics].indexOf Layer.lyrics :=
  ⟨rfl, by decide⟩

/-- `List.getD` on a replicated list. -/
theorem getD_replicate {α : Type} (n i : ℕ) (x d : α) :
    (List.replicate n x).getD i d = if i < n then x else d := by
  rw [List.getD_eq_getElem?_getD, List.getElem?_replicate]
  by_cases h : i < n
  · rw [if_pos h, if_pos h]; rfl
  · rw [if_neg h, if_neg h]; rfl

/-- Every height lookup in the all-zero spectrogram is zero. -/
theorem getH_zero (ctx : SpecCtx) (hh : ctx.heights = zeroHeights) (i fidx : ℕ) :
    getH ctx i fidx = 0 := by
  unfold getH
  rw [hh]
  unfold zeroHeights
  rw [getD_replicate]
  split_ifs with h
  · rw [getD_replicate]
    split_ifs <;> rfl
  · rfl

/-- No bar of the all-zero spectrogram has positive height. -/
theorem anyBarPos_zero (ctx : SpecCtx) (hh : ctx.heights = zeroHeights) (fidx : ℕ) :
    anyBarPos ctx fidx = false := by
  unfold anyBarPos
  rw [List.any_eq_false]
  intro i hi
  simp [barH, getH_zero ctx hh, pyInt]

/-- **C1 (code bug).** For EVERY spectrum context the spectrum layer
construction raises an exception instead of producing a color buffer
and mask: the per-frame draw itself raises for the numpy styles
(`UnboundLocalError`) and for `Circle` with any positive bar
(`ValueError`), and even when the frame evaluation succeeds the mask
clip at engine.py line 361 references the undefined name `make_mask`
(`NameError`).  Concretely, style `Bars` over the all-zero spectrogram
raises `UnboundLocalError` on `pil_img` at `t = 0`. -/
theorem c1_spectrum_layer_always_raises :
    (∀ ctx : SpecCtx, ∃ e, spectrumClipSetup ctx = .error e) ∧
    makeSpectrumRgba ctxBarsZero 0 = .error (.unboundLocal "pil_img") := by
  constructor
  · intro ctx
    unfold spectrumClipSetup
    cases makeSpectrumRgba ctx 0 with
    | error e => exact ⟨e, rfl⟩
    | ok f => exact ⟨.nameError "make_mask", rfl⟩
  · have hz : ctxBarsZero.heights = zeroHeights := rfl
    have hst : ctxBarsZero.style = "Bars" := rfl
    unfold makeSpectrumRgba
    rw [if_neg (by rw [hst]; simp), if_neg (by rw [anyBarPos_zero ctxBarsZero hz]; simp)]

/-- **C7 (code bug).** Feeding the all-zero spectrogram does NOT yield
an all-zero alpha mask for every style: style `Bars` raises
`UnboundLocalError` instead of returning anything, and style `Line`
returns a buffer on which a 50-point baseline polyline was drawn
(and an RGB-only buffer at that, with no alpha channel). -/
theorem c7_zero_spectrogram_not_blank :
    drawsNothing (makeSpectrumRgba ctxBarsZero 0) = false ∧
    makeSpectrumRgba ctxBarsZero 0 = .error (.unboundLocal "pil_img") ∧
    drawsNothing (makeSpectrumRgba ctxLineZero 0) = false ∧
    (∃ pts, makeSpectrumRgba ctxLineZero 0 =
      .ok ⟨.rgb, [DrawOp.lineSeg pts ctxLineZero.drawnW]⟩ ∧ pts.length = 50) := by
  have hz : ctxBarsZero.heights = zeroHeights := rfl
  have hb : makeSpectrumRgba ctxBarsZero 0 = .error (.unboundLocal "pil_img") := by
    have hst : ctxBarsZero.style = "Bars" := rfl
    unfold makeSpectrumRgba
    rw [if_neg (by rw [hst]; simp), if_neg (by rw [anyBarPos_zero ctxBarsZero hz]; simp)]
  have hlst : ctxLineZero.style = "Line" := rfl
  have hfidx : ((pyInt (0 * 30)).toNat % ctxLineZero.numFrames) = 0 := by
    norm_num [pyInt]
  have hline : makeSpectrumRgba ctxLineZero 0 =
      .ok ⟨.rgb, [DrawOp.lineSeg (tipPoints ctxLineZero 0) ctxLineZero.drawnW]⟩ := by
    unfold makeSpectrumRgba
    rw [if_pos (by rw [hlst]; simp), if_pos hlst, hfidx]
    show Except.ok (SpecFrame.mk BufKind.rgb
        (if 1 < (tipPoints ctxLineZero 0).length then
          [DrawOp.lineSeg (tipPoints ctxLineZero 0) ctxLineZero.drawnW]
        else [])) = _
    rw [if_pos (by simp [tipPoints, numBars])]
  refine ⟨by rw [hb]; rfl, hb, by rw [hline]; rfl, tipPoints ctxLineZero 0, hline, ?_⟩
  simp [tipPoints, numBars]
